import Mathlib

/-!
Shallow embedding of `pahkat-repomgr`'s `src/package/update.rs`.

Filesystem paths are modelled as lists of components (`[]` is the
filesystem root); the Rust `Path::parent` is `List.dropLast` guarded by
emptiness.  `pahkat_types::package::Version`, platform identifiers and
payload documents are compared and copied structurally by the code, so
they are modelled as `String`.  The external TOML (de)serializers and the
interactive prompt are parameters of the model: the code only observes
whether they succeed and with what value.
-/

namespace Repomgr

/-- A filesystem path as its list of components; `[]` is the root `/`. -/
abbrev FsPath := List String

/-- `pahkat_types::payload::Target`: one platform's artifact inside a release. -/
structure Target where
  platform : String
  payload : String
  deriving DecidableEq, Repr

/-- `pahkat_types::package::Release`: a (version, channel) entry and its targets. -/
structure Release where
  version : String
  channel : Option String
  target : List Target
  deriving DecidableEq, Repr

/-- `pahkat_types::package::Descriptor`: the per-package document.  The
`package` field stands for the descriptor metadata the update never touches. -/
structure Descriptor where
  package : String
  release : List Release
  deriving DecidableEq, Repr

/-- `Request` from `update.rs`: the fully populated instruction for `update`. -/
structure Request where
  repo_path : FsPath
  id : String
  platform : String
  channel : Option String
  version : String
  payload : String
  deriving DecidableEq, Repr

/-- Replace the element at position `n` by `f` of it; out of range is a no-op.
Models the mutation through the `iter_mut().find` reference in `update`. -/
def modifyAt (f : α → α) : Nat → List α → List α
  | _, [] => []
  | 0, a :: as => f a :: as
  | n + 1, a :: as => a :: modifyAt f n as

/-- The release predicate of `update`:
`&x.version == &*request.version && x.channel == channel`. -/
def releaseMatches (ver : String) (ch : Option String) (r : Release) : Bool :=
  r.version == ver && r.channel == ch

/-- The target predicate of `update`: `x.platform == request.platform`. -/
def targetMatches (plat : String) (t : Target) : Bool :=
  t.platform == plat

/-- Index of the first element satisfying `p`: the `iter_mut().find` scan of
the source, exposed as a position. -/
def findIdxP (p : α → Bool) : List α → Option Nat
  | [] => none
  | a :: as => if p a then some 0 else (findIdxP p as).map (· + 1)

/-- Target resolution of `update`: overwrite the payload of the first target
whose platform matches, else insert a fresh target at the front. -/
def upsertTarget (plat pay : String) (ts : List Target) : List Target :=
  match findIdxP (targetMatches plat) ts with
  | some i => modifyAt (fun t => { t with payload := pay }) i ts
  | none => ⟨plat, pay⟩ :: ts

/-- Release resolution of `update`: the release list after resolution together
with the index of the resolved release.  A matching release is reused in
place; otherwise a fresh release with no targets is inserted at the front. -/
def resolveRelease (ver : String) (ch : Option String) (rs : List Release) :
    List Release × Nat :=
  match findIdxP (releaseMatches ver ch) rs with
  | some i => (rs, i)
  | none => (⟨ver, ch, []⟩ :: rs, 0)

/-- The target-resolution step applied to the resolved release: its target
sequence is upserted, its version and channel are untouched. -/
def applyTarget (req : Request) (r : Release) : Release :=
  { r with target := upsertTarget req.platform req.payload r.target }

/-- The in-memory mutation performed by `update` on the parsed descriptor:
resolve the release, then upsert the target inside it. -/
def updateDescriptor (req : Request) (d : Descriptor) : Descriptor :=
  let rc := resolveRelease req.version req.channel d.release
  { d with release := modifyAt (applyTarget req) rc.2 rc.1 }

/-! ## Filesystem model and the repository locator -/

/-- The filesystem as an association list from paths to file contents; a
missing binding models both a missing file and an I/O error reading it. -/
abbrev FsModel := List (FsPath × String)

/-- `fs::read_to_string`, as far as the code observes it. -/
def fsRead (fs : FsModel) (p : FsPath) : Option String :=
  match fs with
  | [] => none
  | (q, c) :: rest => if q = p then some c else fsRead rest p

/-- `fs::write`: bind `p` to `data`, shadowing any previous binding. -/
def fsWrite (fs : FsModel) (p : FsPath) (data : String) : FsModel :=
  (p, data) :: fs

/-- `path.join("index.toml")`: the repository marker document of directory `p`. -/
def markerPath (p : FsPath) : FsPath := p ++ ["index.toml"]

/-- `open_repo`: read `<p>/index.toml` and try to parse it as a repository;
read failure and parse failure are both `None` (`.ok()?` twice). -/
def openRepo (fs : FsModel) (parse : String → Bool) (p : FsPath) : Bool :=
  match fsRead fs (markerPath p) with
  | some c => parse c
  | none => false

/-- The `ends_with("index.toml")` normalisation at the top of `find_repo`:
a path whose final component is the marker filename is replaced by its parent. -/
def stripMarker (p : FsPath) : FsPath :=
  if p.getLast? = some "index.toml" then p.dropLast else p

/-- `Path::parent`: `none` exactly at the filesystem root. -/
def parentPath : FsPath → Option FsPath
  | [] => none
  | p => some p.dropLast

/-- The ascent loop of `find_repo`, recursing on the reversed component list
(`tail` of the reversed list is `Path::parent`): check the candidate, then
walk to the parent while one exists. -/
inductive FindRepoError where
  | notFound
  deriving DecidableEq, Repr

def findRev (fs : FsModel) (parse : String → Bool) : List String → Except FindRepoError FsPath
  | [] => if openRepo fs parse [] then .ok [] else .error .notFound
  | x :: xs =>
    if openRepo fs parse (x :: xs).reverse then .ok (x :: xs).reverse
    else findRev fs parse xs

/-- `find_repo` without its initial marker-stripping step. -/
def findRepoFrom (fs : FsModel) (parse : String → Bool) (c : FsPath) :
    Except FindRepoError FsPath :=
  findRev fs parse c.reverse

/-- `find_repo`: strip a trailing marker component, then search the candidate
and its ancestors bottom-up for a directory whose marker parses. -/
def findRepo (fs : FsModel) (parse : String → Bool) (p : FsPath) :
    Except FindRepoError FsPath :=
  findRepoFrom fs parse (stripMarker p)

/-- The candidate directory followed by its ancestors, nearest first, ending
at the filesystem root (helper on the reversed component list). -/
def ancestorsRev : List String → List FsPath
  | [] => [[]]
  | x :: xs => (x :: xs).reverse :: ancestorsRev xs

/-- The chain of directories `find_repo` visits: `c`, its parent, …, the root. -/
def ancestors (c : FsPath) : List FsPath :=
  ancestorsRev c.reverse

/-! ## The effectful `update`, with an explicit file-operation trace -/

/-- One file operation performed (or attempted) by the code. -/
inductive FileOp where
  | read (p : FsPath)
  | write (p : FsPath)
  deriving DecidableEq, Repr

/-- `findRev` instrumented with the reads `open_repo` attempts, in order. -/
def findRevTr (fs : FsModel) (parse : String → Bool) :
    List String → Except FindRepoError FsPath × List FileOp
  | [] =>
    (if openRepo fs parse [] then .ok [] else .error .notFound,
      [FileOp.read (markerPath [])])
  | x :: xs =>
    if openRepo fs parse (x :: xs).reverse then
      (.ok (x :: xs).reverse, [FileOp.read (markerPath (x :: xs).reverse)])
    else
      let r := findRevTr fs parse xs
      (r.1, FileOp.read (markerPath (x :: xs).reverse) :: r.2)

/-- The error outcomes of `update` that the code distinguishes.  The first
three are the variants of its `Error` enum (`DirCreateFailed`, `WriteToml`,
`SerializeToml`), each annotated with the offending file path; the rest are
the failures `update` propagates through `?`. -/
inductive UErr where
  | dirCreateFailed (p : FsPath)
  | writeToml (p : FsPath)
  | serializeToml (p : FsPath)
  | noRepo (e : FindRepoError)
  | descriptorRead (p : FsPath)
  | descriptorParse (p : FsPath)
  deriving DecidableEq, Repr

/-- Whether an error is the directory-creation kind (`DirCreateFailed`). -/
def UErr.isDirCreate : UErr → Bool
  | .dirCreateFailed _ => true
  | _ => false

/-- The file path a `UErr` is annotated with, when it carries one. -/
def UErr.annotatedPath : UErr → Option FsPath
  | .dirCreateFailed p => some p
  | .writeToml p => some p
  | .serializeToml p => some p
  | .noRepo _ => none
  | .descriptorRead p => some p
  | .descriptorParse p => some p

/-- Environment of one `update` call: the filesystem plus the external TOML
collaborators (repository parse, descriptor parse, descriptor serialize) and
whether `fs::write` fails on a given path. -/
structure Ctx where
  fs : FsModel
  parseRepo : String → Bool
  parseDesc : String → Option Descriptor
  serialize : Descriptor → Option String
  writeFails : FsPath → Bool

/-- The descriptor file of package `id`:
`find_repo(..).join("packages").join(id).join("index.toml")`. -/
def pkgIndexPath (root : FsPath) (id : String) : FsPath :=
  (root ++ ["packages", id]) ++ ["index.toml"]

/-- `update`: locate the repository, read and parse
`<root>/packages/<id>/index.toml`, mutate the descriptor in memory,
serialize it, and write it back to the same path.  Returns the outcome, the
resulting filesystem and the trace of file operations attempted. -/
def runUpdate (ctx : Ctx) (req : Request) :
    Except UErr Unit × FsModel × List FileOp :=
  let fr := findRevTr ctx.fs ctx.parseRepo (stripMarker req.repo_path).reverse
  match fr.1 with
  | .error e => (.error (.noRepo e), ctx.fs, fr.2)
  | .ok root =>
    let pkgPath := pkgIndexPath root req.id
    let tr := fr.2 ++ [FileOp.read pkgPath]
    match fsRead ctx.fs pkgPath with
    | none => (.error (.descriptorRead pkgPath), ctx.fs, tr)
    | some content =>
      match ctx.parseDesc content with
      | none => (.error (.descriptorParse pkgPath), ctx.fs, tr)
      | some desc =>
        let desc2 := updateDescriptor req desc
        match ctx.serialize desc2 with
        | none => (.error (.serializeToml pkgPath), ctx.fs, tr)
        | some data =>
          if ctx.writeFails pkgPath then
            (.error (.writeToml pkgPath), ctx.fs, tr ++ [FileOp.write pkgPath])
          else
            (.ok (), fsWrite ctx.fs pkgPath data, tr ++ [FileOp.write pkgPath])

/-! ## Panic-explicit variants

The source contains three `unwrap` calls: `path.parent().unwrap()` in
`find_repo`, and `first_mut().unwrap()` after each front-insertion in
`update`.  The variants below return `none` exactly where the corresponding
`unwrap` would panic, so "cannot panic" is `≠ none`. -/

/-- `find_repo`'s normalisation with the `parent().unwrap()` made explicit. -/
def stripMarkerChecked (p : FsPath) : Option FsPath :=
  if p.getLast? = some "index.toml" then parentPath p else some p

/-- `find_repo` with the panic made explicit. -/
def findRepoChecked (fs : FsModel) (parse : String → Bool) (p : FsPath) :
    Option (Except FindRepoError FsPath) :=
  (stripMarkerChecked p).map (fun c => findRev fs parse c.reverse)

/-- Target resolution with `release.target.first_mut().unwrap()` explicit:
after the front-insertion the code takes the head of the sequence. -/
def upsertTargetChecked (plat pay : String) (ts : List Target) :
    Option (List Target) :=
  match findIdxP (targetMatches plat) ts with
  | some i => some (modifyAt (fun t => { t with payload := pay }) i ts)
  | none =>
    let ts2 : List Target := ⟨plat, pay⟩ :: ts
    match ts2.head? with
    | none => none
    | some _ => some ts2

/-- `modifyAt` where the modification itself may signal a panic. -/
def modifyAtChecked (f : α → Option α) : Nat → List α → Option (List α)
  | _, [] => some []
  | 0, a :: as => (f a).map (· :: as)
  | n + 1, a :: as => (modifyAtChecked f n as).map (a :: ·)

/-- The in-memory mutation of `update` with both `first_mut().unwrap()`
panics explicit: the one after inserting a fresh release and the one after
inserting a fresh target. -/
def updateDescriptorChecked (req : Request) (d : Descriptor) : Option Descriptor :=
  let touch : Release → Option Release := fun r =>
    (upsertTargetChecked req.platform req.payload r.target).map
      (fun ts => { r with target := ts })
  match findIdxP (releaseMatches req.version req.channel) d.release with
  | some i =>
    (modifyAtChecked touch i d.release).map (fun rs => { d with release := rs })
  | none =>
    let rs : List Release := ⟨req.version, req.channel, []⟩ :: d.release
    match rs.head? with
    | none => none
    | some _ =>
      (modifyAtChecked touch 0 rs).map (fun rs2 => { d with release := rs2 })

/-! ## Channel resolution in `new_from_user_input` -/

/-- The channel arm of `new_from_user_input`: an explicitly supplied partial
channel is kept as is; otherwise `entered` is the string gathered from the
interactive prompt, and the empty string selects the default (stable)
channel. -/
def resolveChannelInput (partialChannel : Option String) (entered : String) :
    Option String :=
  match partialChannel with
  | some c => some c
  | none => if entered == "" then none else some entered

/-! ## Uniqueness invariants of a descriptor -/

/-- The identifying key of a release: its `(version, channel)` pair. -/
def releaseKey (r : Release) : String × Option String :=
  (r.version, r.channel)

/-- No two releases share an equal `(version, channel)` pair. -/
def releasesUnique (rs : List Release) : Prop :=
  (rs.map releaseKey).Nodup

/-- No two targets of one release share an equal `platform`. -/
def targetsUnique (ts : List Target) : Prop :=
  (ts.map Target.platform).Nodup

/-- Both uniqueness properties of a descriptor. -/
def descriptorUnique (d : Descriptor) : Prop :=
  releasesUnique d.release ∧ ∀ r ∈ d.release, targetsUnique r.target

/-! ## Concrete fixtures used by examples and witnesses -/

/-- A filesystem whose only valid repository marker is at `/a`; the marker at
`/a/b` exists but does not parse. -/
def fsEx : FsModel :=
  [(["a", "index.toml"], "good"), (["a", "b", "index.toml"], "garbage")]

/-- The repository-marker parser of the fixture: only `"good"` parses. -/
def parseEx : String → Bool := fun s => s == "good"

/-- A one-release, one-target descriptor. -/
def d0 : Descriptor :=
  ⟨"pkg", [⟨"1.0", none, [⟨"windows", "P1"⟩]⟩]⟩

/-- An environment with a repository at `/a` containing package `pkg`. -/
def ctxEx : Ctx where
  fs := [(["a", "index.toml"], "repo"),
         (["a", "packages", "pkg", "index.toml"], "desc")]
  parseRepo := fun s => s == "repo"
  parseDesc := fun s => if s == "desc" then some d0 else none
  serialize := fun _ => some "out"
  writeFails := fun _ => false

/-- A fully populated request against the fixture repository. -/
def reqEx : Request :=
  ⟨["a", "b"], "pkg", "windows", none, "1.0", "P2"⟩

/-- The fixture environment with a serializer that always fails. -/
def ctxSerFail : Ctx :=
  { ctxEx with serialize := fun _ => none }

/-! ## Lemmas about the first-match scan and in-place modification -/

theorem findIdxP_eq_none_iff {p : α → Bool} {l : List α} :
    findIdxP p l = none ↔ ∀ x ∈ l, p x = false := by
  induction l with
  | nil => simp [findIdxP]
  | cons a as ih =>
    by_cases h : p a <;> simp [findIdxP, h, ih]

theorem findIdxP_eq_some_of {p : α → Bool} {l : List α} {i : Nat} {x : α}
    (hx : l.get? i = some x) (hpx : p x = true)
    (hmin : ∀ j y, j < i → l.get? j = some y → p y = false) :
    findIdxP p l = some i := by
  induction l generalizing i with
  | nil => simp at hx
  | cons a as ih =>
    cases i with
    | zero =>
      simp only [List.get?_cons_zero, Option.some.injEq] at hx
      subst hx
      simp [findIdxP, hpx]
    | succ k =>
      have ha : p a = false := hmin 0 a (Nat.succ_pos k) rfl
      simp only [List.get?_cons_succ] at hx
      have := ih hx (fun j y hj hy => hmin (j + 1) y (Nat.succ_lt_succ hj) hy)
      simp [findIdxP, ha, this]

theorem findIdxP_eq_some_elim {p : α → Bool} {l : List α} {i : Nat}
    (h : findIdxP p l = some i) :
    ∃ x, l.get? i = some x ∧ p x = true := by
  induction l generalizing i with
  | nil => simp [findIdxP] at h
  | cons a as ih =>
    by_cases hpa : p a
    · simp only [findIdxP, hpa, if_pos, Option.some.injEq] at h
      subst h
      exact ⟨a, rfl, hpa⟩
    · simp only [findIdxP, hpa, if_neg, Option.map_eq_some', Bool.false_eq_true,
        not_false_iff] at h
      obtain ⟨k, hk, hik⟩ := h
      obtain ⟨x, hx, hpx⟩ := ih hk
      subst hik
      exact ⟨x, by simpa using hx, hpx⟩

theorem modifyAt_nil (f : α → α) (n : Nat) : modifyAt f n [] = [] := by
  cases n <;> rfl

theorem length_modifyAt (f : α → α) (n : Nat) (l : List α) :
    (modifyAt f n l).length = l.length := by
  induction l generalizing n with
  | nil => rw [modifyAt_nil]
  | cons a as ih => cases n <;> simp [modifyAt, ih]

theorem get?_modifyAt_self {f : α → α} {n : Nat} {l : List α} {x : α}
    (h : l.get? n = some x) : (modifyAt f n l).get? n = some (f x) := by
  induction l generalizing n with
  | nil => simp at h
  | cons a as ih =>
    cases n with
    | zero =>
      simp only [List.get?_cons_zero, Option.some.injEq] at h
      subst h; rfl
    | succ k =>
      simp only [List.get?_cons_succ] at h
      simpa [modifyAt] using ih h

theorem get?_modifyAt_ne {f : α → α} {n : Nat} (l : List α) {m : Nat}
    (h : m ≠ n) : (modifyAt f n l).get? m = l.get? m := by
  induction l generalizing n m with
  | nil => rw [modifyAt_nil]
  | cons a as ih =>
    cases n with
    | zero =>
      cases m with
      | zero => exact absurd rfl h
      | succ j => simp [modifyAt]
    | succ k =>
      cases m with
      | zero => simp [modifyAt]
      | succ j => simpa [modifyAt] using ih (fun hc => h (by rw [hc]))

theorem map_modifyAt (f : α → α) (g : α → β) (n : Nat) (l : List α)
    (hg : ∀ a, g (f a) = g a) : (modifyAt f n l).map g = l.map g := by
  induction l generalizing n with
  | nil => rw [modifyAt_nil]
  | cons a as ih => cases n <;> simp [modifyAt, hg, ih]

theorem mem_modifyAt {f : α → α} {n : Nat} {l : List α} {x : α}
    (h : x ∈ modifyAt f n l) : x ∈ l ∨ ∃ y, y ∈ l ∧ x = f y := by
  induction l generalizing n with
  | nil => rw [modifyAt_nil] at h; cases h
  | cons a as ih =>
    cases n with
    | zero =>
      rcases List.mem_cons.mp h with hxa | hmem
      · exact Or.inr ⟨a, List.mem_cons_self a as, hxa⟩
      · exact Or.inl (List.mem_cons_of_mem a hmem)
    | succ k =>
      rcases List.mem_cons.mp h with hxa | hmem
      · exact Or.inl (hxa ▸ List.mem_cons_self a as)
      · rcases ih hmem with h1 | ⟨y, hy, hxy⟩
        · exact Or.inl (List.mem_cons_of_mem a h1)
        · exact Or.inr ⟨y, List.mem_cons_of_mem a hy, hxy⟩

theorem findIdxP_modifyAt {p : α → Bool} (f : α → α) (n : Nat) (l : List α)
    (hp : ∀ a, p (f a) = p a) : findIdxP p (modifyAt f n l) = findIdxP p l := by
  induction l generalizing n with
  | nil => rw [modifyAt_nil]
  | cons a as ih => cases n <;> simp [modifyAt, findIdxP, hp, ih]

theorem modifyAt_modifyAt (f g : α → α) (n : Nat) (l : List α) :
    modifyAt f n (modifyAt g n l) = modifyAt (fun a => f (g a)) n l := by
  induction l generalizing n with
  | nil => simp [modifyAt_nil]
  | cons a as ih => cases n <;> simp [modifyAt, ih]

theorem releaseMatches_iff {ver : String} {ch : Option String} {r : Release} :
    releaseMatches ver ch r = true ↔ r.version = ver ∧ r.channel = ch := by
  simp [releaseMatches]

theorem releaseMatches_eq_false {ver : String} {ch : Option String} {r : Release}
    (h : ¬(r.version = ver ∧ r.channel = ch)) : releaseMatches ver ch r = false := by
  rw [Bool.eq_false_iff]
  exact fun hc => h (releaseMatches_iff.mp hc)

theorem targetMatches_iff {plat : String} {t : Target} :
    targetMatches plat t = true ↔ t.platform = plat := by
  simp [targetMatches]

theorem targetMatches_eq_false {plat : String} {t : Target}
    (h : t.platform ≠ plat) : targetMatches plat t = false := by
  rw [Bool.eq_false_iff]
  exact fun hc => h (targetMatches_iff.mp hc)

/-! ## Claim C1: release resolution -/

/-- C1.  Release resolution scans the existing releases for one whose
`(version, channel)` pair equals the request's pair, the channel compared by
exact `Option` equality (so `none` only matches `none`, with no fallback).
The first such release is reused at its existing position — the release list
is returned unchanged together with that position — and when none matches, a
new release with the request's version and channel and an empty target
sequence is inserted at index 0. -/
theorem release_resolution_c1 (ver : String) (ch : Option String) (rs : List Release) :
    (∀ i x, rs.get? i = some x → x.version = ver ∧ x.channel = ch →
        (∀ j y, j < i → rs.get? j = some y → ¬(y.version = ver ∧ y.channel = ch)) →
        resolveRelease ver ch rs = (rs, i)) ∧
    ((∀ r ∈ rs, ¬(r.version = ver ∧ r.channel = ch)) →
        resolveRelease ver ch rs = (Release.mk ver ch [] :: rs, 0)) := by
  constructor
  · intro i x hx hmatch hmin
    have hfind : findIdxP (releaseMatches ver ch) rs = some i :=
      findIdxP_eq_some_of hx (releaseMatches_iff.mpr hmatch)
        (fun j y hj hy => releaseMatches_eq_false (hmin j y hj hy))
    simp [resolveRelease, hfind]
  · intro hall
    have hfind : findIdxP (releaseMatches ver ch) rs = none :=
      findIdxP_eq_none_iff.mpr (fun r hr => releaseMatches_eq_false (hall r hr))
    simp [resolveRelease, hfind]

/-- C1 witness: a matching release (same version, both channels `none`) is
reused at its position; a non-matching request inserts a fresh empty release
at the front. -/
theorem release_resolution_c1_witness :
    resolveRelease "1.0" none [⟨"1.0", none, []⟩] = ([⟨"1.0", none, []⟩], 0) ∧
    resolveRelease "2.0" (some "beta") [⟨"1.0", none, []⟩] =
      (⟨"2.0", some "beta", []⟩ :: [⟨"1.0", none, []⟩], 0) :=
  ⟨(release_resolution_c1 "1.0" none [⟨"1.0", none, []⟩]).1 0 ⟨"1.0", none, []⟩
      rfl ⟨rfl, rfl⟩ (fun j _ hj _ => absurd hj (Nat.not_lt_zero j)),
    (release_resolution_c1 "2.0" (some "beta") [⟨"1.0", none, []⟩]).2 (by decide)⟩

/-! ## Claim C2: target resolution -/

/-- C2.  Target resolution scans the resolved release's targets for one whose
platform equals the request's platform.  When the first match sits at
position `i`, only that target's payload is overwritten — the sequence keeps
its length, position `i` holds the old target with its platform and only the
payload replaced, and every other position is unchanged.  When no target
matches, a new target with the request's platform and payload is inserted at
index 0, the other entries keeping their relative order as the tail. -/
theorem target_resolution_c2 (plat pay : String) (ts : List Target) :
    (∀ i x, ts.get? i = some x → x.platform = plat →
        (∀ j y, j < i → ts.get? j = some y → y.platform ≠ plat) →
        (upsertTarget plat pay ts).length = ts.length ∧
        (upsertTarget plat pay ts).get? i = some ⟨x.platform, pay⟩ ∧
        ∀ j, j ≠ i → (upsertTarget plat pay ts).get? j = ts.get? j) ∧
    ((∀ t ∈ ts, t.platform ≠ plat) →
        upsertTarget plat pay ts = ⟨plat, pay⟩ :: ts) := by
  constructor
  · intro i x hx hmatch hmin
    have hfind : findIdxP (targetMatches plat) ts = some i :=
      findIdxP_eq_some_of hx (targetMatches_iff.mpr hmatch)
        (fun j y hj hy => targetMatches_eq_false (hmin j y hj hy))
    refine ⟨?_, ?_, ?_⟩
    · simp [upsertTarget, hfind, length_modifyAt]
    · simpa [upsertTarget, hfind] using get?_modifyAt_self hx
    · intro j hj
      simp only [upsertTarget, hfind]
      exact get?_modifyAt_ne ts hj
  · intro hall
    have hfind : findIdxP (targetMatches plat) ts = none :=
      findIdxP_eq_none_iff.mpr (fun t ht => targetMatches_eq_false (hall t ht))
    simp [upsertTarget, hfind]

/-- C2 witness: overwriting the payload of the matching `"windows"` target,
and front-inserting a fresh `"mac"` target. -/
theorem target_resolution_c2_witness :
    ((upsertTarget "windows" "P2" [⟨"windows", "P1"⟩]).length =
        [(⟨"windows", "P1"⟩ : Target)].length ∧
      (upsertTarget "windows" "P2" [⟨"windows", "P1"⟩]).get? 0 =
        some ⟨"windows", "P2"⟩ ∧
      ∀ j, j ≠ 0 → (upsertTarget "windows" "P2" [⟨"windows", "P1"⟩]).get? j =
        [(⟨"windows", "P1"⟩ : Target)].get? j) ∧
    upsertTarget "mac" "P3" [⟨"windows", "P1"⟩] =
      ⟨"mac", "P3"⟩ :: [⟨"windows", "P1"⟩] :=
  ⟨(target_resolution_c2 "windows" "P2" [⟨"windows", "P1"⟩]).1 0 ⟨"windows", "P1"⟩
      rfl rfl (fun j _ hj _ => absurd hj (Nat.not_lt_zero j)),
    (target_resolution_c2 "mac" "P3" [⟨"windows", "P1"⟩]).2 (by decide)⟩

/-! ## Claim C3: idempotence of the in-memory upsert -/

theorem upsertTarget_idem (plat pay : String) (ts : List Target) :
    upsertTarget plat pay (upsertTarget plat pay ts) = upsertTarget plat pay ts := by
  cases h : findIdxP (targetMatches plat) ts with
  | some i =>
    have hfind2 : findIdxP (targetMatches plat)
        (modifyAt (fun t => { t with payload := pay }) i ts) = some i := by
      rw [findIdxP_modifyAt (fun t => { t with payload := pay }) i ts (fun t => rfl), h]
    simp only [upsertTarget, h, hfind2]
    rw [modifyAt_modifyAt]
  | none =>
    have hm : targetMatches plat (⟨plat, pay⟩ : Target) = true := by
      simp [targetMatches]
    simp only [upsertTarget, h]
    simp [findIdxP, hm, modifyAt]

theorem applyTarget_idem (req : Request) (r : Release) :
    applyTarget req (applyTarget req r) = applyTarget req r := by
  simp [applyTarget, upsertTarget_idem]

theorem releaseMatches_applyTarget (ver : String) (ch : Option String)
    (req : Request) (r : Release) :
    releaseMatches ver ch (applyTarget req r) = releaseMatches ver ch r := rfl

/-- C3.  Applying `update`'s in-memory mutation twice with the same request
produces the same descriptor as applying it once: the second application
finds the very release the first one resolved and the very target the first
one wrote, and overwrites that target with the same payload. -/
theorem update_idempotent_c3 (req : Request) (d : Descriptor) :
    updateDescriptor req (updateDescriptor req d) = updateDescriptor req d := by
  simp only [updateDescriptor, resolveRelease]
  cases h : findIdxP (releaseMatches req.version req.channel) d.release with
  | some i =>
    have hfind2 : findIdxP (releaseMatches req.version req.channel)
        (modifyAt (applyTarget req) i d.release) = some i := by
      rw [findIdxP_modifyAt (applyTarget req) i d.release
        (releaseMatches_applyTarget req.version req.channel req), h]
    simp only [hfind2]
    rw [modifyAt_modifyAt]
    have : (fun r => applyTarget req (applyTarget req r)) = applyTarget req :=
      funext (applyTarget_idem req)
    rw [this]
  | none =>
    have hm : releaseMatches req.version req.channel
        (applyTarget req ⟨req.version, req.channel, []⟩) = true := by
      rw [releaseMatches_applyTarget]
      simp [releaseMatches]
    simp only [modifyAt]
    simp [findIdxP, hm, modifyAt, applyTarget_idem]

/-! ## Claim C4: uniqueness of release keys and target platforms is preserved -/

theorem upsertTarget_unique (plat pay : String) (ts : List Target)
    (h : targetsUnique ts) : targetsUnique (upsertTarget plat pay ts) := by
  cases hf : findIdxP (targetMatches plat) ts with
  | some i =>
    unfold targetsUnique at h ⊢
    simp only [upsertTarget, hf]
    rw [map_modifyAt (fun t => { t with payload := pay }) Target.platform i ts (fun t => rfl)]
    exact h
  | none =>
    have hall := findIdxP_eq_none_iff.mp hf
    simp only [upsertTarget, hf, targetsUnique, List.map_cons]
    rw [List.nodup_cons]
    refine ⟨?_, h⟩
    intro hmem
    obtain ⟨t, ht, hpt⟩ := List.mem_map.mp hmem
    have : t.platform ≠ plat := fun he => by
      have hb := targetMatches_iff.mpr he
      rw [hall t ht] at hb
      exact Bool.false_ne_true hb
    exact this hpt

/-- C4.  When no two releases of a descriptor share an equal
`(version, channel)` pair and no two targets inside any one release share an
equal platform, the descriptor produced by the in-memory upsert satisfies
both uniqueness properties again. -/
theorem uniqueness_preserved_c4 (req : Request) (d : Descriptor)
    (h : descriptorUnique d) : descriptorUnique (updateDescriptor req d) := by
  obtain ⟨h1, h2⟩ := h
  simp only [updateDescriptor, resolveRelease, descriptorUnique]
  cases hf : findIdxP (releaseMatches req.version req.channel) d.release with
  | some i =>
    constructor
    · unfold releasesUnique at h1 ⊢
      simp only
      rw [map_modifyAt (applyTarget req) releaseKey i d.release (fun r => rfl)]
      exact h1
    · intro r hr
      simp only at hr
      rcases mem_modifyAt hr with hmem | ⟨y, hy, hry⟩
      · exact h2 r hmem
      · rw [hry]
        exact upsertTarget_unique _ _ _ (h2 y hy)
  | none =>
    have hall := findIdxP_eq_none_iff.mp hf
    constructor
    · simp only [modifyAt, releasesUnique, List.map_cons]
      rw [List.nodup_cons]
      refine ⟨?_, h1⟩
      intro hmem
      obtain ⟨r, hrmem, hkey⟩ := List.mem_map.mp hmem
      have hne : ¬(r.version = req.version ∧ r.channel = req.channel) := fun hc => by
        have hb := releaseMatches_iff.mpr hc
        rw [hall r hrmem] at hb
        exact Bool.false_ne_true hb
      have : releaseKey r = (req.version, req.channel) := by
        simpa [releaseKey, applyTarget] using hkey
      exact hne ⟨congrArg Prod.fst this, congrArg Prod.snd this⟩
    · intro r hr
      simp only [modifyAt] at hr
      rcases List.mem_cons.mp hr with h0 | hmem
      · rw [h0]
        simp [applyTarget, upsertTarget, findIdxP, targetsUnique]
      · exact h2 r hmem

/-- C4 witness: the fixture descriptor satisfies both uniqueness properties,
and so does the result of updating it with the fixture request. -/
theorem uniqueness_preserved_c4_witness :
    descriptorUnique d0 ∧ descriptorUnique (updateDescriptor reqEx d0) := by
  have h : descriptorUnique d0 := by
    constructor
    · simp [releasesUnique, releaseKey, d0]
    · intro r hr
      simp only [d0, List.mem_singleton] at hr
      subst hr
      simp [targetsUnique]
  exact ⟨h, uniqueness_preserved_c4 reqEx d0 h⟩

/-! ## Claim C5: the repository locator -/

theorem findRev_eq_find (fs : FsModel) (parse : String → Bool) (rp : List String) :
    findRev fs parse rp =
      match (ancestorsRev rp).find? (openRepo fs parse) with
      | some q => Except.ok q
      | none => Except.error FindRepoError.notFound := by
  induction rp with
  | nil =>
    by_cases h : openRepo fs parse [] <;> simp [findRev, ancestorsRev, h]
  | cons x xs ih =>
    simp only [findRev, ancestorsRev]
    by_cases h : openRepo fs parse ((x :: xs).reverse)
    · rw [if_pos h, List.find?_cons_of_pos _ h]
    · rw [if_neg h, List.find?_cons_of_neg _ h, ih]

/-- C5.  The locator visits the candidate directory (the starting path with a
trailing marker component stripped) and then its ancestors, nearest first up
to the filesystem root, and returns the first directory whose marker
document is read and parsed successfully — a missing marker, an unreadable
one and one that fails to parse are treated alike, as `openRepo = false`.
If no visited directory succeeds it fails with `NotFound`.  On the fixture
tree, where only `/a` holds a valid marker (the one at `/a/b` exists but
does not parse), resolving from `/a/b/c` returns `/a`, and resolving from
the disjoint `/x/y` fails with `NotFound`. -/
theorem locator_c5 (fs : FsModel) (parse : String → Bool) (p : FsPath) :
    (findRepo fs parse p =
      match (ancestors (stripMarker p)).find? (openRepo fs parse) with
      | some q => Except.ok q
      | none => Except.error FindRepoError.notFound) ∧
    (findRepo fs parse p = Except.error FindRepoError.notFound ↔
      ∀ q ∈ ancestors (stripMarker p), openRepo fs parse q = false) ∧
    findRepo fsEx parseEx ["a", "b", "c"] = Except.ok ["a"] ∧
    findRepo fsEx parseEx ["x", "y"] = Except.error FindRepoError.notFound := by
  refine ⟨findRev_eq_find fs parse (stripMarker p).reverse, ?_, rfl, rfl⟩
  unfold findRepo findRepoFrom
  rw [findRev_eq_find fs parse (stripMarker p).reverse]
  show (match (ancestors (stripMarker p)).find? (openRepo fs parse) with
      | some q => Except.ok q
      | none => Except.error FindRepoError.notFound) = _ ↔ _
  cases hf : (ancestors (stripMarker p)).find? (openRepo fs parse) with
  | none =>
    constructor
    · intro _ q hq
      exact Bool.eq_false_iff.mpr (List.find?_eq_none.mp hf q hq)
    · intro _
      rfl
  | some q =>
    have hq : openRepo fs parse q = true := List.find?_some hf
    have hmem := List.mem_of_find?_eq_some hf
    constructor
    · intro hc
      exact Except.noConfusion hc
    · intro hall
      rw [hall q hmem] at hq
      exact absurd hq (by simp)

/-! ## Claim C6: serialization failure leaves the file untouched -/

theorem findRevTr_reads (fs : FsModel) (parse : String → Bool) (rp : List String) :
    ∀ op ∈ (findRevTr fs parse rp).2, ∃ q, op = FileOp.read (markerPath q) := by
  induction rp with
  | nil =>
    intro op hop
    simp only [findRevTr, List.mem_singleton] at hop
    exact ⟨[], hop⟩
  | cons x xs ih =>
    intro op hop
    by_cases h : openRepo fs parse ((x :: xs).reverse)
    · rw [findRevTr, if_pos h] at hop
      simp only [List.mem_singleton] at hop
      exact ⟨(x :: xs).reverse, hop⟩
    · rw [findRevTr, if_neg h] at hop
      rcases List.mem_cons.mp hop with h0 | hmem
      · exact ⟨(x :: xs).reverse, h0⟩
      · exact ih op hmem

theorem findRevTr_no_write (fs : FsModel) (parse : String → Bool)
    (rp : List String) (q : FsPath) : FileOp.write q ∉ (findRevTr fs parse rp).2 := by
  intro hmem
  obtain ⟨r, hr⟩ := findRevTr_reads fs parse rp _ hmem
  cases hr

/-- C6.  When every earlier stage of `update` succeeds but serializing the
mutated in-memory descriptor fails, `update` returns the `SerializeToml`
error annotated with the descriptor's file path, the filesystem is returned
exactly as it was, and no write of any file is ever attempted. -/
theorem serialize_failure_c6 (ctx : Ctx) (req : Request) (root : FsPath)
    (content : String) (desc : Descriptor)
    (hroot : (findRevTr ctx.fs ctx.parseRepo (stripMarker req.repo_path).reverse).1 =
      Except.ok root)
    (hread : fsRead ctx.fs (pkgIndexPath root req.id) = some content)
    (hparse : ctx.parseDesc content = some desc)
    (hser : ctx.serialize (updateDescriptor req desc) = none) :
    (runUpdate ctx req).1 = Except.error (UErr.serializeToml (pkgIndexPath root req.id)) ∧
    (runUpdate ctx req).2.1 = ctx.fs ∧
    ∀ q, FileOp.write q ∉ (runUpdate ctx req).2.2 := by
  have h1 : runUpdate ctx req =
      (Except.error (UErr.serializeToml (pkgIndexPath root req.id)), ctx.fs,
        (findRevTr ctx.fs ctx.parseRepo (stripMarker req.repo_path).reverse).2 ++
          [FileOp.read (pkgIndexPath root req.id)]) := by
    simp only [runUpdate, hroot, hread, hparse, hser]
  rw [h1]
  refine ⟨rfl, rfl, ?_⟩
  intro q hq
  rcases List.mem_append.mp hq with hmem | hmem
  · exact findRevTr_no_write ctx.fs ctx.parseRepo _ q hmem
  · simp at hmem

/-- C6 witness: on the fixture repository with an always-failing serializer,
`update` reports `SerializeToml` for `/a/packages/pkg/index.toml` and the
filesystem is unchanged with no write attempted. -/
theorem serialize_failure_c6_witness :
    (runUpdate ctxSerFail reqEx).1 =
      Except.error (UErr.serializeToml (pkgIndexPath ["a"] "pkg")) ∧
    (runUpdate ctxSerFail reqEx).2.1 = ctxSerFail.fs ∧
    ∀ q, FileOp.write q ∉ (runUpdate ctxSerFail reqEx).2.2 :=
  serialize_failure_c6 ctxSerFail reqEx ["a"] "desc" d0 rfl rfl rfl rfl

/-! ## Claim C7: files read and written by a successful `update`

The claim as stated is false on the code: before touching the descriptor,
`update` calls `find_repo`, whose `open_repo` reads the marker document
`index.toml` of every candidate directory it visits, so a successful call
reads more than the one descriptor file. -/

/-- C7 counterexample: a successful fixture run whose trace contains reads of
two distinct paths — the repository marker `/a/index.toml` and the package
descriptor `/a/packages/pkg/index.toml` — refuting that exactly one file is
read. -/
theorem update_frame_c7_counterexample :
    (runUpdate ctxEx reqEx).1 = Except.ok () ∧
    FileOp.read ["a", "index.toml"] ∈ (runUpdate ctxEx reqEx).2.2 ∧
    FileOp.read ["a", "packages", "pkg", "index.toml"] ∈ (runUpdate ctxEx reqEx).2.2 ∧
    (["a", "index.toml"] : FsPath) ≠ ["a", "packages", "pkg", "index.toml"] :=
  ⟨rfl, by decide, by decide, by decide⟩

/-- C7 amended.  On every successful invocation of `update`, besides the
repository marker documents read while resolving the repository root, exactly
one further file is read — the package descriptor at
`<root>/packages/<id>/index.toml` — and the only file written is exactly that
same descriptor file. -/
theorem update_frame_c7_amended (ctx : Ctx) (req : Request)
    (h : (runUpdate ctx req).1 = Except.ok ()) :
    ∃ root data,
      (findRevTr ctx.fs ctx.parseRepo (stripMarker req.repo_path).reverse).1 =
        Except.ok root ∧
      (∀ op ∈ (findRevTr ctx.fs ctx.parseRepo (stripMarker req.repo_path).reverse).2,
        ∃ q, op = FileOp.read (markerPath q)) ∧
      (runUpdate ctx req).2.2 =
        (findRevTr ctx.fs ctx.parseRepo (stripMarker req.repo_path).reverse).2 ++
          [FileOp.read (pkgIndexPath root req.id), FileOp.write (pkgIndexPath root req.id)] ∧
      (runUpdate ctx req).2.1 = fsWrite ctx.fs (pkgIndexPath root req.id) data := by
  cases hfr : (findRevTr ctx.fs ctx.parseRepo (stripMarker req.repo_path).reverse).1 with
  | error e =>
    have hc : (runUpdate ctx req).1 = Except.error (UErr.noRepo e) := by
      simp only [runUpdate, hfr]
    rw [hc] at h
    exact Except.noConfusion h
  | ok root =>
    cases hread : fsRead ctx.fs (pkgIndexPath root req.id) with
    | none =>
      have hc : (runUpdate ctx req).1 =
          Except.error (UErr.descriptorRead (pkgIndexPath root req.id)) := by
        simp only [runUpdate, hfr, hread]
      rw [hc] at h
      exact Except.noConfusion h
    | some content =>
      cases hparse : ctx.parseDesc content with
      | none =>
        have hc : (runUpdate ctx req).1 =
            Except.error (UErr.descriptorParse (pkgIndexPath root req.id)) := by
          simp only [runUpdate, hfr, hread, hparse]
        rw [hc] at h
        exact Except.noConfusion h
      | some desc =>
        cases hser : ctx.serialize (updateDescriptor req desc) with
        | none =>
          have hc : (runUpdate ctx req).1 =
              Except.error (UErr.serializeToml (pkgIndexPath root req.id)) := by
            simp only [runUpdate, hfr, hread, hparse, hser]
          rw [hc] at h
          exact Except.noConfusion h
        | some data =>
          cases hw : ctx.writeFails (pkgIndexPath root req.id) with
          | true =>
            have hc : (runUpdate ctx req).1 =
                Except.error (UErr.writeToml (pkgIndexPath root req.id)) := by
              simp only [runUpdate, hfr, hread, hparse, hser, hw, if_true]
            rw [hc] at h
            exact Except.noConfusion h
          | false =>
            refine ⟨root, data, rfl,
              findRevTr_reads ctx.fs ctx.parseRepo (stripMarker req.repo_path).reverse,
              ?_, ?_⟩
            · simp only [runUpdate, hfr, hread, hparse, hser, hw, if_false,
                Bool.false_eq_true, List.append_assoc, List.singleton_append,
                List.cons_append, List.nil_append]
            · simp only [runUpdate, hfr, hread, hparse, hser, hw, if_false,
                Bool.false_eq_true]

/-- C7 amended, witness: the successful fixture run. -/
theorem update_frame_c7_amended_witness :
    ∃ root data,
      (findRevTr ctxEx.fs ctxEx.parseRepo (stripMarker reqEx.repo_path).reverse).1 =
        Except.ok root ∧
      (∀ op ∈ (findRevTr ctxEx.fs ctxEx.parseRepo (stripMarker reqEx.repo_path).reverse).2,
        ∃ q, op = FileOp.read (markerPath q)) ∧
      (runUpdate ctxEx reqEx).2.2 =
        (findRevTr ctxEx.fs ctxEx.parseRepo (stripMarker reqEx.repo_path).reverse).2 ++
          [FileOp.read (pkgIndexPath root reqEx.id), FileOp.write (pkgIndexPath root reqEx.id)] ∧
      (runUpdate ctxEx reqEx).2.1 = fsWrite ctxEx.fs (pkgIndexPath root reqEx.id) data :=
  update_frame_c7_amended ctxEx reqEx rfl

/-! ## Claim C8: the directory-creation error kind -/

theorem runUpdate_not_dirCreate (ctx : Ctx) (req : Request) (e : UErr)
    (h : (runUpdate ctx req).1 = Except.error e) : e.isDirCreate = false := by
  cases hfr : (findRevTr ctx.fs ctx.parseRepo (stripMarker req.repo_path).reverse).1 with
  | error e2 =>
    have hc : (runUpdate ctx req).1 = Except.error (UErr.noRepo e2) := by
      simp only [runUpdate, hfr]
    rw [hc] at h
    injection h with h2
    subst h2
    rfl
  | ok root =>
    cases hread : fsRead ctx.fs (pkgIndexPath root req.id) with
    | none =>
      have hc : (runUpdate ctx req).1 =
          Except.error (UErr.descriptorRead (pkgIndexPath root req.id)) := by
        simp only [runUpdate, hfr, hread]
      rw [hc] at h
      injection h with h2
      subst h2
      rfl
    | some content =>
      cases hparse : ctx.parseDesc content with
      | none =>
        have hc : (runUpdate ctx req).1 =
            Except.error (UErr.descriptorParse (pkgIndexPath root req.id)) := by
          simp only [runUpdate, hfr, hread, hparse]
        rw [hc] at h
        injection h with h2
        subst h2
        rfl
      | some desc =>
        cases hser : ctx.serialize (updateDescriptor req desc) with
        | none =>
          have hc : (runUpdate ctx req).1 =
              Except.error (UErr.serializeToml (pkgIndexPath root req.id)) := by
            simp only [runUpdate, hfr, hread, hparse, hser]
          rw [hc] at h
          injection h with h2
          subst h2
          rfl
        | some data =>
          cases hw : ctx.writeFails (pkgIndexPath root req.id) with
          | true =>
            have hc : (runUpdate ctx req).1 =
                Except.error (UErr.writeToml (pkgIndexPath root req.id)) := by
              simp only [runUpdate, hfr, hread, hparse, hser, hw, if_true]
            rw [hc] at h
            injection h with h2
            subst h2
            rfl
          | false =>
            have hc : (runUpdate ctx req).1 = Except.ok () := by
              simp only [runUpdate, hfr, hread, hparse, hser, hw, if_false,
                Bool.false_eq_true]
            rw [hc] at h
            exact Except.noConfusion h

/-- C8.  The code's `Error` enum gives directory-creation failure its own
kind, `DirCreateFailed`, annotated with the offending file path and distinct
from the write-failure and serialization-failure kinds; and since `update`
never attempts to create a directory, no invocation reports it: every error
`update` returns is of some other kind. -/
theorem dir_create_error_c8 :
    (∀ p q : FsPath, UErr.dirCreateFailed p ≠ UErr.writeToml q ∧
      UErr.dirCreateFailed p ≠ UErr.serializeToml q) ∧
    (∀ p : FsPath, (UErr.dirCreateFailed p).annotatedPath = some p) ∧
    (∀ (ctx : Ctx) (req : Request) (e : UErr),
      (runUpdate ctx req).1 = Except.error e → e.isDirCreate = false) := by
  exact ⟨fun p q => ⟨fun hc => UErr.noConfusion hc, fun hc => UErr.noConfusion hc⟩,
    fun p => rfl, runUpdate_not_dirCreate⟩

/-- C8 witness: a failing fixture run reports `SerializeToml`, which is not
the directory-creation kind. -/
theorem dir_create_error_c8_witness :
    (runUpdate ctxSerFail reqEx).1 =
      Except.error (UErr.serializeToml (pkgIndexPath ["a"] "pkg")) ∧
    (UErr.serializeToml (pkgIndexPath ["a"] "pkg")).isDirCreate = false :=
  ⟨rfl, dir_create_error_c8.2.2 ctxSerFail reqEx _ rfl⟩

/-! ## Claim C9: the unwraps cannot panic -/

theorem stripMarkerChecked_eq (p : FsPath) :
    stripMarkerChecked p = some (stripMarker p) := by
  unfold stripMarkerChecked stripMarker
  by_cases h : p.getLast? = some "index.toml"
  · rw [if_pos h, if_pos h]
    cases p with
    | nil => simp at h
    | cons a as => rfl
  · rw [if_neg h, if_neg h]

theorem upsertTargetChecked_eq (plat pay : String) (ts : List Target) :
    upsertTargetChecked plat pay ts = some (upsertTarget plat pay ts) := by
  cases h : findIdxP (targetMatches plat) ts with
  | some i => simp [upsertTargetChecked, upsertTarget, h]
  | none => simp [upsertTargetChecked, upsertTarget, h]

theorem modifyAtChecked_eq (f : α → Option α) (g : α → α) (n : Nat) (l : List α)
    (hf : ∀ a, f a = some (g a)) :
    modifyAtChecked f n l = some (modifyAt g n l) := by
  induction l generalizing n with
  | nil => rw [modifyAt_nil]; cases n <;> rfl
  | cons a as ih => cases n <;> simp [modifyAtChecked, modifyAt, hf, ih]

/-- C9.  Neither `find_repo` nor the in-memory mutation of `update` can
panic: with each `unwrap` modelled explicitly as an `Option` failure — the
`parent().unwrap()` of `find_repo`, reached only when the final path
component is the marker filename, and each `first_mut().unwrap()` of
`update`, reached only right after an insertion at index 0 — both checked
variants always return `some` of the total function's result. -/
theorem no_panic_c9 (fs : FsModel) (parse : String → Bool) (p : FsPath)
    (req : Request) (d : Descriptor) :
    findRepoChecked fs parse p = some (findRepo fs parse p) ∧
    updateDescriptorChecked req d = some (updateDescriptor req d) := by
  constructor
  · unfold findRepoChecked findRepo findRepoFrom
    rw [stripMarkerChecked_eq]
    rfl
  · unfold updateDescriptorChecked updateDescriptor resolveRelease
    have htouch : ∀ r : Release,
        (upsertTargetChecked req.platform req.payload r.target).map
          (fun ts => { r with target := ts }) = some (applyTarget req r) := by
      intro r
      rw [upsertTargetChecked_eq]
      rfl
    cases h : findIdxP (releaseMatches req.version req.channel) d.release with
    | some i =>
      simp only [h]
      rw [modifyAtChecked_eq _ (applyTarget req) i d.release htouch]
      rfl
    | none =>
      simp only [h, List.head?]
      rw [modifyAtChecked_eq _ (applyTarget req) 0
        (⟨req.version, req.channel, []⟩ :: d.release) htouch]
      rfl

/-! ## Claim C10: interactive channel resolution -/

/-- C10.  In `new_from_user_input`, when the partial request has no channel
an interactively entered empty string yields channel `none` (the default
stable track) and a non-empty entered string `s` yields `some s`; an
explicitly supplied partial channel is kept as is and is never mapped to
`none`. -/
theorem channel_input_c10 :
    resolveChannelInput none "" = none ∧
    (∀ s : String, s ≠ "" → resolveChannelInput none s = some s) ∧
    (∀ c e : String, resolveChannelInput (some c) e = some c) := by
  refine ⟨rfl, ?_, fun c e => rfl⟩
  intro s hs
  simp [resolveChannelInput, hs]

/-- C10 witness: the entered string `"beta"` is non-empty and resolves to the
channel `some "beta"`. -/
theorem channel_input_c10_witness :
    "beta" ≠ "" ∧ resolveChannelInput none "beta" = some "beta" :=
  ⟨by decide, channel_input_c10.2.1 "beta" (by decide)⟩

end Repomgr
